import Mathlib

/-!
Shallow embedding of `crates/build-utils/src/filter.rs`: a declarative skip
filter for a conformance test suite.  The `Filter` structure holds three
mappings (`BTreeMap<String, Vec<String>>` in the source, modelled here as
association lists iterated in the stored order; a `BTreeMap`'s keys are
unique, and none of the proved properties depends on the iteration order).
The operations are `Filter.is_skipped` (the three-tier skip decision),
`map_diff` / `Filter.diff` (structural diff between documents), and the
deserialization step of `Filter::load_file`.
-/

namespace EfTests

/-- `type Folder = String;` from the source. -/
abbrev Folder := String

/-- `type FilterMap = BTreeMap<Folder, Vec<String>>;` modelled as an
association list (a `BTreeMap` has unique keys; lookups return the first
binding, which coincides with map lookup whenever keys are unique). -/
abbrev FilterMap := List (Folder × List String)

/-- `BTreeMap::get`: lookup of a key, `none` when absent. -/
def mapGet (m : FilterMap) (k : Folder) : Option (List String) :=
  match m.find? (fun kv => kv.1 == k) with
  | some kv => some kv.2
  | none => none

/-- `BTreeMap::contains_key`. -/
def containsKey (m : FilterMap) (k : Folder) : Bool :=
  m.any (fun kv => kv.1 == k)

/-- Index of the last occurrence of a dot in a character list, if any. -/
def lastDotIndex (cs : List Char) : Option Nat :=
  ((cs.enum.filter (fun p => p.2 == '.')).map Prod.fst).getLast?

/-- Modelled from the spec: the file-stem of a single path component, i.e.
the component with any extension removed (the text before the last dot,
the whole component when there is no dot or when the only dot leads). -/
def fileStem (s : String) : String :=
  match lastDotIndex s.data with
  | none => s
  | some i => if i = 0 then s else String.mk (s.data.take i)

/-- Modelled from the spec: `PathWrapper` (`crates/build-utils/src/path.rs`,
not among the given sources).  The spec requires only (a) the file-stem of
the path, and (b) the file-stem of the path's parent component, both
returning an empty string when the relevant component is missing.  A path
is modelled as its list of components. -/
structure PathWrapper where
  components : List String
deriving DecidableEq

/-- Modelled from the spec: `PathWrapper::parent`, the path without its
final component. -/
def PathWrapper.parent (p : PathWrapper) : PathWrapper :=
  ⟨p.components.dropLast⟩

/-- Modelled from the spec: `PathWrapper::file_stem_to_string`, the
file-stem of the path's final component, `""` when the path is empty. -/
def PathWrapper.file_stem_to_string (p : PathWrapper) : String :=
  match p.components.getLast? with
  | none => ""
  | some n => fileStem n

/-- The filter document: three mappings from directory name to a list of
strings (`filename`, `regex`, `test_name`; the last serialized as
`testname`). -/
structure Filter where
  filename : FilterMap
  regex : FilterMap
  test_name : FilterMap
deriving DecidableEq

/-- `regexes.iter().any(|regex| Regex::new(regex).expect(..).is_match(&file_name))`.
The host regex engine (the external `regex` crate) is abstracted as a
`compile` function returning `none` on a malformed pattern; the `expect`
panic is modelled by propagating `none`.  Rust's `any` short-circuits, so a
pattern after the first match is never compiled. -/
def anyRegexMatch (compile : String → Option (String → Bool)) :
    List String → String → Option Bool
  | [], _ => some false
  | r :: rs, s =>
    match compile r with
    | none => none
    | some m => if m s then some true else anyRegexMatch compile rs s

/-- `Filter::is_skipped`.  The result is `none` exactly when the source
panics (a malformed regex pattern is compiled during evaluation); note that
Rust's `|=` always evaluates its right-hand side, so the regex tier runs
even when the filename tier already matched. -/
def Filter.is_skipped (compile : String → Option (String → Bool))
    (flt : Filter) (path : PathWrapper) (case_name : Option String) :
    Option Bool :=
  let dir_name := path.parent.file_stem_to_string
  let file_name := path.file_stem_to_string
  let skip_filename :=
    (Option.map
      (fun filtered_files => filtered_files.any fun filename => filename == file_name)
      (mapGet flt.filename dir_name)).getD false
  match
    (Option.map (fun regexes => anyRegexMatch compile regexes file_name)
      (mapGet flt.regex dir_name)).getD (some false) with
  | none => none
  | some skip_regex =>
    match case_name with
    | some c =>
      some (skip_filename || skip_regex ||
        (Option.map (fun tests => tests.any fun t => t == c)
          (mapGet flt.test_name dir_name)).getD false)
    | none => some (skip_filename || skip_regex)

/-- The filename tier of the skip decision, as a standalone check
(spec §4.2 step 2). -/
def skip_by_filename (flt : Filter) (path : PathWrapper) : Bool :=
  (Option.map
    (fun filtered_files =>
      filtered_files.any fun filename => filename == path.file_stem_to_string)
    (mapGet flt.filename path.parent.file_stem_to_string)).getD false

/-- The regex tier of the skip decision, as a standalone check
(spec §4.2 step 3); `none` models the panic on a malformed pattern. -/
def skip_by_regex (compile : String → Option (String → Bool))
    (flt : Filter) (path : PathWrapper) : Option Bool :=
  (Option.map
    (fun regexes => anyRegexMatch compile regexes path.file_stem_to_string)
    (mapGet flt.regex path.parent.file_stem_to_string)).getD (some false)

/-- The test-name tier of the skip decision, as a standalone check
(spec §4.2 step 4): false when no case name is provided. -/
def skip_by_test_name (flt : Filter) (path : PathWrapper)
    (case_name : Option String) : Bool :=
  match case_name with
  | none => false
  | some c =>
    (Option.map (fun tests => tests.any fun t => t == c)
      (mapGet flt.test_name path.parent.file_stem_to_string)).getD false

/-- The element-wise list comparison of `map_diff`:
`lhs.get(key).unwrap().iter().zip(rhs.get(key).unwrap().iter()).all(|(l, r)| l == r)`.
`zip` truncates to the shorter list.  The `.getD []` stands for the
`unwrap`s: on a `BTreeMap` the key being examined is always present on the
`lhs` side, and the `rhs` side is only reached when `contains_key`
succeeded (the one corner where the source would re-reach an absent key is
unreachable because a `BTreeMap` has no duplicate keys). -/
def sameAt (lhs rhs : FilterMap) (key : Folder) : Bool :=
  (((mapGet lhs key).getD []).zip ((mapGet rhs key).getD [])).all
    fun p => p.1 == p.2

/-- One iteration of the loop body of the `diff` closure in `map_diff`:
push `key` when it is absent from `rhs`, or when the element-wise
comparison fails, in both cases only when not already recorded. -/
def diffStep (lhs rhs : FilterMap) (top : List Folder) (key : Folder) :
    List Folder :=
  if !containsKey rhs key && !top.contains key then top ++ [key]
  else if !sameAt lhs rhs key && !top.contains key then top ++ [key]
  else top

/-- The `for (key, _) in lhs.iter()` loop of the `diff` closure, over an
explicit list of keys. -/
def diffKeys (lhs rhs : FilterMap) (keys : List Folder)
    (top : List Folder) : List Folder :=
  match keys with
  | [] => top
  | k :: ks => diffKeys lhs rhs ks (diffStep lhs rhs top k)

/-- One directional pass `diff(&mut top, lhs, rhs)` of `map_diff`. -/
def diffPass (lhs rhs : FilterMap) (top : List Folder) : List Folder :=
  diffKeys lhs rhs (lhs.map Prod.fst) top

/-- `map_diff`: the forward pass followed by the symmetric pass. -/
def map_diff (lhs rhs : FilterMap) : List Folder :=
  diffPass rhs lhs (diffPass lhs rhs [])

/-- `Filter::diff`: the three single-mapping diffs appended in order. -/
def Filter.diff (lhs rhs : Filter) : List Folder :=
  map_diff lhs.filename rhs.filename ++
    map_diff lhs.regex rhs.regex ++
      map_diff lhs.test_name rhs.test_name

/-- Whether `needle` occurs at the start of `hay`. -/
def listStarts : List Char → List Char → Bool
  | [], _ => true
  | _ :: _, [] => false
  | a :: as, b :: bs => a == b && listStarts as bs

/-- Whether `needle` occurs contiguously anywhere inside `hay`. -/
def strContains (needle hay : List Char) : Bool :=
  match hay with
  | [] => listStarts needle []
  | _ :: rest => listStarts needle hay || strContains needle rest

/-- A small concrete regex engine used to instantiate the abstract
`compile` parameter in witnesses, mirroring the host engine on the
fragment the filter documents use: a literal optionally followed by a
trailing dot-star matches as an unanchored substring, and a pattern
containing an opening parenthesis (necessarily unbalanced in this
fragment) fails to compile. -/
def simpleCompile (pat : String) : Option (String → Bool) :=
  let cs := pat.data
  if cs.contains '(' then none
  else
    let lit :=
      match cs.reverse with
      | '*' :: '.' :: _ => cs.dropLast.dropLast
      | _ => cs
    if lit.contains '.' || lit.contains '*' then none
    else some fun s => strContains lit s.data

/-- A value of the textual structured format consumed by
`Filter::load_file` (the source uses YAML via `serde_yaml`): strings,
sequences, and mappings with string keys. -/
inductive YamlValue where
  | str (s : String)
  | seq (items : List YamlValue)
  | map (entries : List (String × YamlValue))

/-- Deserializing a sequence of strings into `Vec<String>`: any non-string
item is a shape error. -/
def asStringList : List YamlValue → Option (List String)
  | [] => some []
  | .str s :: rest => (asStringList rest).map (s :: ·)
  | .seq _ :: _ => none
  | .map _ :: _ => none

/-- Deserializing mapping entries into a `FilterMap`: every value must be
a sequence of strings. -/
def asFilterMapEntries : List (String × YamlValue) → Option FilterMap
  | [] => some []
  | (k, .seq items) :: rest => do
    let vs ← asStringList items
    let m ← asFilterMapEntries rest
    some ((k, vs) :: m)
  | (_, .str _) :: _ => none
  | (_, .map _) :: _ => none

/-- Deserializing a value into a `FilterMap`: the value must be a mapping
from strings to sequences of strings. -/
def asFilterMap : YamlValue → Option FilterMap
  | .map es => asFilterMapEntries es
  | .str _ => none
  | .seq _ => none

/-- Lookup of a field in a document mapping. -/
def yamlLookup (es : List (String × YamlValue)) (k : String) :
    Option YamlValue :=
  (es.find? (fun e => e.1 == k)).map (·.2)

/-- The deserialization step of `Filter::load_file`
(`serde_yaml::from_str::<Filter>`).  The derived `Deserialize` declares
all three fields and carries no `serde(default)` attribute, so each of
`filename`, `regex` and `testname` (the serialization name of
`test_name`) must be present and must be a mapping from directory names
to sequences of strings; unknown extra fields are ignored (serde's
default); any other shape is a format error (`none`). -/
def deserializeFilter (y : YamlValue) : Option Filter :=
  match y with
  | .map es => do
    let f ← yamlLookup es "filename"
    let fm ← asFilterMap f
    let r ← yamlLookup es "regex"
    let rm ← asFilterMap r
    let t ← yamlLookup es "testname"
    let tm ← asFilterMap t
    some ⟨fm, rm, tm⟩
  | .str _ => none
  | .seq _ => none

/-- Encoding of a `FilterMap` as a document section (used to state which
documents are well-formed). -/
def encodeFilterMap (m : FilterMap) : YamlValue :=
  .map (m.map fun kv => (kv.1, .seq (kv.2.map .str)))

theorem mapGet_isSome (m : FilterMap) (k : Folder) :
    (mapGet m k).isSome = containsKey m k := by
  induction m with
  | nil => rfl
  | cons kv t ih =>
    unfold mapGet containsKey at *
    cases h : kv.1 == k <;> simp [List.find?, List.any, h, ih]

theorem mapGet_eq_none (m : FilterMap) (k : Folder)
    (h : containsKey m k = false) : mapGet m k = none := by
  have hs := mapGet_isSome m k
  rw [h] at hs
  cases hg : mapGet m k with
  | none => rfl
  | some v => rw [hg] at hs; simp at hs

theorem containsKey_iff (m : FilterMap) (k : Folder) :
    containsKey m k = true ↔ k ∈ m.map Prod.fst := by
  simp [containsKey, List.any_eq_true, List.mem_map]

theorem zipAll_self (v : List String) :
    ((v.zip v).all fun p => p.1 == p.2) = true := by
  induction v with
  | nil => rfl
  | cons a t ih => simp [List.zip, List.zipWith, ih]

theorem zipAll_append (v t : List String) :
    ((v.zip (v ++ t)).all fun p => p.1 == p.2) = true := by
  induction v with
  | nil => rfl
  | cons a s ih =>
    show ((a == a) && ((s.zip (s ++ t)).all fun p => p.1 == p.2)) = true
    rw [ih, beq_self_eq_true]
    rfl

theorem zipAll_append_left (v t : List String) :
    (((v ++ t).zip v).all fun p => p.1 == p.2) = true := by
  induction v with
  | nil =>
    show ((t.zip []).all fun p => p.1 == p.2) = true
    cases t <;> rfl
  | cons a s ih =>
    show ((a == a) && (((s ++ t).zip s).all fun p => p.1 == p.2)) = true
    rw [ih, beq_self_eq_true]
    rfl

theorem zipAll_comm (l r : List String) :
    ((l.zip r).all fun p => p.1 == p.2) =
      ((r.zip l).all fun p => p.1 == p.2) := by
  induction l generalizing r with
  | nil => cases r <;> rfl
  | cons a t ih =>
    cases r with
    | nil => rfl
    | cons b s =>
      show ((a == b) && ((t.zip s).all fun p => p.1 == p.2)) =
        ((b == a) && ((s.zip t).all fun p => p.1 == p.2))
      rw [ih s, Bool.beq_comm]

theorem sameAt_self (m : FilterMap) (k : Folder) : sameAt m m k = true := by
  unfold sameAt
  exact zipAll_self _

theorem sameAt_comm (lhs rhs : FilterMap) (k : Folder) :
    sameAt lhs rhs k = sameAt rhs lhs k := by
  unfold sameAt
  exact zipAll_comm _ _

theorem mem_diffStep {lhs rhs : FilterMap} {top : List Folder}
    {key x : Folder} :
    x ∈ diffStep lhs rhs top key ↔
      x ∈ top ∨ (x = key ∧ x ∉ top ∧
        (containsKey rhs key = false ∨ sameAt lhs rhs key = false)) := by
  unfold diffStep
  by_cases h1 : containsKey rhs key <;> by_cases h2 : key ∈ top <;>
    by_cases h3 : sameAt lhs rhs key = true <;>
      simp_all [List.contains, List.elem_iff]
  · constructor
    · rintro (h | rfl)
      · exact Or.inl h
      · exact Or.inr ⟨rfl, h2⟩
    · rintro (h | ⟨rfl, _⟩)
      · exact Or.inl h
      · exact Or.inr rfl
  · constructor
    · rintro (h | rfl)
      · exact Or.inl h
      · exact Or.inr ⟨rfl, h2⟩
    · rintro (h | ⟨rfl, _⟩)
      · exact Or.inl h
      · exact Or.inr rfl
  · constructor
    · rintro (h | rfl)
      · exact Or.inl h
      · exact Or.inr ⟨rfl, h2⟩
    · rintro (h | ⟨rfl, _⟩)
      · exact Or.inl h
      · exact Or.inr rfl

theorem mem_diffKeys {lhs rhs : FilterMap} (keys : List Folder)
    (top : List Folder) (x : Folder) :
    x ∈ diffKeys lhs rhs keys top ↔
      x ∈ top ∨ (x ∈ keys ∧
        (containsKey rhs x = false ∨ sameAt lhs rhs x = false)) := by
  induction keys generalizing top with
  | nil => simp [diffKeys]
  | cons k ks ih =>
    rw [diffKeys, ih, mem_diffStep]
    constructor
    · rintro ((h | ⟨rfl, hnt, hc⟩) | ⟨hks, hc⟩)
      · exact Or.inl h
      · exact Or.inr ⟨List.mem_cons_self _ _, hc⟩
      · exact Or.inr ⟨List.mem_cons_of_mem _ hks, hc⟩
    · rintro (h | ⟨hmem, hc⟩)
      · exact Or.inl (Or.inl h)
      · rcases List.mem_cons.mp hmem with rfl | hks
        · by_cases ht : x ∈ top
          · exact Or.inl (Or.inl ht)
          · exact Or.inl (Or.inr ⟨rfl, ht, hc⟩)
        · exact Or.inr ⟨hks, hc⟩

theorem nodup_diffStep {lhs rhs : FilterMap} {top : List Folder}
    {key : Folder} (h : top.Nodup) : (diffStep lhs rhs top key).Nodup := by
  unfold diffStep
  by_cases h2 : key ∈ top <;>
    by_cases h1 : containsKey rhs key <;>
      by_cases h3 : sameAt lhs rhs key = true <;>
        simp_all [List.contains, List.elem_iff, List.nodup_append]

theorem nodup_diffKeys {lhs rhs : FilterMap} (keys : List Folder)
    (top : List Folder) (h : top.Nodup) :
    (diffKeys lhs rhs keys top).Nodup := by
  induction keys generalizing top with
  | nil => simpa [diffKeys]
  | cons k ks ih => exact ih _ (nodup_diffStep h)

theorem mem_map_diff {lhs rhs : FilterMap} {x : Folder} :
    x ∈ map_diff lhs rhs ↔
      (x ∈ lhs.map Prod.fst ∧
        (containsKey rhs x = false ∨ sameAt lhs rhs x = false)) ∨
      (x ∈ rhs.map Prod.fst ∧
        (containsKey lhs x = false ∨ sameAt rhs lhs x = false)) := by
  unfold map_diff diffPass
  rw [mem_diffKeys, mem_diffKeys]
  simp [or_comm]

theorem nodup_map_diff (lhs rhs : FilterMap) : (map_diff lhs rhs).Nodup :=
  nodup_diffKeys _ _ (nodup_diffKeys _ _ List.nodup_nil)

theorem map_diff_perm (A B : FilterMap) :
    List.Perm (map_diff A B) (map_diff B A) := by
  apply (List.perm_ext_iff_of_nodup (nodup_map_diff _ _)
    (nodup_map_diff _ _)).mpr
  intro x
  rw [mem_map_diff, mem_map_diff]
  exact or_comm

theorem is_skipped_eq (compile : String → Option (String → Bool))
    (flt : Filter) (path : PathWrapper) (case_name : Option String) :
    Filter.is_skipped compile flt path case_name =
      Option.map
        (fun rb => skip_by_filename flt path || rb ||
          skip_by_test_name flt path case_name)
        (skip_by_regex compile flt path) := by
  unfold Filter.is_skipped skip_by_filename skip_by_regex skip_by_test_name
  cases hreg : (Option.map
      (fun regexes => anyRegexMatch compile regexes path.file_stem_to_string)
      (mapGet flt.regex path.parent.file_stem_to_string)).getD (some false) with
  | none => simp [hreg]
  | some rb => cases case_name <;> simp [hreg]

theorem anyRegexMatch_some_true (compile : String → Option (String → Bool))
    (pats : List String) (f r : String)
    (hall : ∀ p ∈ pats, (compile p).isSome = true)
    (hr : r ∈ pats)
    (hm : ((compile r).map (fun m => m f)).getD false = true) :
    anyRegexMatch compile pats f = some true := by
  induction pats with
  | nil => cases hr
  | cons q qs ih =>
    have hq := hall q (List.mem_cons_self q qs)
    obtain ⟨mq, hmq⟩ := Option.isSome_iff_exists.mp hq
    rw [anyRegexMatch, hmq]
    cases hmf : mq f with
    | true => simp [hmf]
    | false =>
      have hrqs : r ∈ qs := by
        rcases List.mem_cons.mp hr with rfl | h
        · rw [hmq] at hm
          simp at hm
          rw [hm] at hmf
          cases hmf
        · exact h
      simp only [hmf, Bool.false_eq_true, if_false]
      exact ih (fun p hp => hall p (List.mem_cons_of_mem _ hp)) hrqs

theorem anyRegexMatch_none (compile : String → Option (String → Bool))
    (pre suf : List String) (p f : String)
    (hpre : ∀ q ∈ pre, (compile q).map (fun m => m f) = some false)
    (hbad : compile p = none) :
    anyRegexMatch compile (pre ++ p :: suf) f = none := by
  induction pre with
  | nil => rw [List.nil_append, anyRegexMatch, hbad]
  | cons q qs ih =>
    have hq := hpre q (List.mem_cons_self q qs)
    cases hcq : compile q with
    | none => rw [hcq] at hq; cases hq
    | some mq =>
      rw [hcq] at hq
      simp only [Option.map_some', Option.some.injEq] at hq
      rw [List.cons_append, anyRegexMatch, hcq]
      show (if mq f = true then some true
        else anyRegexMatch compile (qs ++ p :: suf) f) = none
      rw [hq]
      simp only [Bool.false_eq_true, if_false]
      exact ih fun x hx => hpre x (List.mem_cons_of_mem _ hx)

theorem asStringList_map_str (l : List String) :
    asStringList (l.map .str) = some l := by
  induction l with
  | nil => rfl
  | cons a t ih => simp [asStringList, ih]

theorem asFilterMapEntries_encode (m : FilterMap) :
    asFilterMapEntries (m.map fun kv => (kv.1, .seq (kv.2.map .str))) =
      some m := by
  induction m with
  | nil => rfl
  | cons kv t ih =>
    simp [asFilterMapEntries, asStringList_map_str, ih]

theorem asFilterMap_encode (m : FilterMap) :
    asFilterMap (encodeFilterMap m) = some m := by
  show asFilterMapEntries _ = some m
  exact asFilterMapEntries_encode m

/-- C1: `is_skipped` is the logical OR of the three independent tiers —
filename, regex and test-name — mapped over the (possibly fatal) regex
tier, and the test-name tier is `false` whenever no case name is
provided. -/
theorem c1_is_skipped_or_decomposition
    (compile : String → Option (String → Bool)) (flt : Filter)
    (path : PathWrapper) (case_name : Option String) :
    Filter.is_skipped compile flt path case_name =
      Option.map
        (fun rb => skip_by_filename flt path || rb ||
          skip_by_test_name flt path case_name)
        (skip_by_regex compile flt path) ∧
    skip_by_test_name flt path none = false :=
  ⟨is_skipped_eq compile flt path case_name, rfl⟩

/-- C2: when a key is present in both mappings and one of the two value
lists extends the other, the element-wise comparison runs only up to the
shorter length, so the key is not reported by `map_diff` even when the
lengths differ. -/
theorem c2_prefix_not_reported (A B : FilterMap) (k : Folder)
    (v₁ v₂ : List String)
    (hA : mapGet A k = some v₁) (hB : mapGet B k = some v₂)
    (hpre : (∃ t, v₂ = v₁ ++ t) ∨ ∃ t, v₁ = v₂ ++ t) :
    k ∉ map_diff A B := by
  have hcA : containsKey A k = true := by
    rw [← mapGet_isSome, hA]; rfl
  have hcB : containsKey B k = true := by
    rw [← mapGet_isSome, hB]; rfl
  have hsAB : sameAt A B k = true := by
    unfold sameAt
    rw [hA, hB]
    simp only [Option.getD_some]
    rcases hpre with ⟨t, rfl⟩ | ⟨t, rfl⟩
    · exact zipAll_append v₁ t
    · exact zipAll_append_left v₂ t
  have hsBA : sameAt B A k = true := by
    rw [sameAt_comm]; exact hsAB
  rw [mem_map_diff]
  rintro (⟨_, hc | hs⟩ | ⟨_, hc | hs⟩) <;> simp_all

/-- Witness for C2: the spec's concrete prefix scenario. -/
theorem c2_prefix_not_reported_witness :
    "k" ∉ map_diff [("k", ["x", "y", "z"])] [("k", ["x", "y"])] :=
  c2_prefix_not_reported [("k", ["x", "y", "z"])] [("k", ["x", "y"])]
    "k" ["x", "y", "z"] ["x", "y"] (by decide) (by decide)
    (Or.inr ⟨["z"], rfl⟩)

/-- Counterexample for C3 as stated: a document whose regex list under the
looked-up directory contains a malformed pattern before a matching one.
The matching pattern is in the list and matches the file stem, yet
`is_skipped` does not return `true`: the evaluation is fatal (the source
panics compiling the malformed pattern; modelled as `none`). -/
theorem c3_regex_match_cex :
    ((simpleCompile "f").map (fun m => m "f")).getD false = true ∧
    "f" ∈ (["(", "f"] : List String) ∧
    mapGet (Filter.mk [] [("d", ["(", "f"])] []).regex
      ((PathWrapper.mk ["d", "f.json"]).parent.file_stem_to_string) =
      some ["(", "f"] ∧
    Filter.is_skipped simpleCompile (Filter.mk [] [("d", ["(", "f"])] [])
      (PathWrapper.mk ["d", "f.json"]) none = none := by
  refine ⟨by decide, by decide, by decide, by decide⟩

/-- C3 amended: provided every pattern stored under the directory
compiles, a pattern in the list that matches the file stem (unanchored
substring match) makes `is_skipped` return true, for any case name. -/
theorem c3_regex_match_skips (compile : String → Option (String → Bool))
    (flt : Filter) (path : PathWrapper) (case_name : Option String)
    (d f : String) (pats : List String) (r : String)
    (hd : path.parent.file_stem_to_string = d)
    (hf : path.file_stem_to_string = f)
    (hget : mapGet flt.regex d = some pats)
    (hall : ∀ p ∈ pats, (compile p).isSome = true)
    (hr : r ∈ pats)
    (hm : ((compile r).map (fun m => m f)).getD false = true) :
    Filter.is_skipped compile flt path case_name = some true := by
  subst hd hf
  rw [is_skipped_eq]
  have hreg : skip_by_regex compile flt path = some true := by
    unfold skip_by_regex
    rw [hget]
    simp only [Option.map_some', Option.getD_some]
    exact anyRegexMatch_some_true compile pats _ r hall hr hm
  rw [hreg]
  simp

/-- Witness for the amended C3: the spec's reference scenario, a document
with regex entry `stBadOpcode : [opc4D dot-star]` skips the candidate
file stem `opc4DDiffPlaces` under directory `stBadOpcode`. -/
theorem c3_regex_match_skips_witness :
    Filter.is_skipped simpleCompile
      (Filter.mk [] [("stBadOpcode", ["opc4D.*"])] [])
      (PathWrapper.mk ["stBadOpcode", "opc4DDiffPlaces.json"]) none =
      some true :=
  c3_regex_match_skips simpleCompile
    (Filter.mk [] [("stBadOpcode", ["opc4D.*"])] [])
    (PathWrapper.mk ["stBadOpcode", "opc4DDiffPlaces.json"]) none
    "stBadOpcode" "opc4DDiffPlaces" ["opc4D.*"] "opc4D.*"
    (by decide) (by decide) (by decide) (by decide) (by decide) (by decide)

/-- C4: when the derived directory name has no entry in any of the three
mappings, `is_skipped` returns false, for any case name; an absent key is
a non-match, not an error. -/
theorem c4_absent_dir_no_skip (compile : String → Option (String → Bool))
    (flt : Filter) (path : PathWrapper) (case_name : Option String)
    (h1 : containsKey flt.filename path.parent.file_stem_to_string = false)
    (h2 : containsKey flt.regex path.parent.file_stem_to_string = false)
    (h3 : containsKey flt.test_name path.parent.file_stem_to_string = false) :
    Filter.is_skipped compile flt path case_name = some false := by
  rw [is_skipped_eq]
  unfold skip_by_filename skip_by_regex skip_by_test_name
  rw [mapGet_eq_none _ _ h1, mapGet_eq_none _ _ h2, mapGet_eq_none _ _ h3]
  cases case_name <;> simp

/-- Witness for C4: a nonempty document and a path with no parent, whose
directory name is therefore the empty string and misses every mapping. -/
theorem c4_absent_dir_no_skip_witness :
    Filter.is_skipped simpleCompile
      (Filter.mk [("d", ["f"])] [("d", ["r"])] [("d", ["t"])])
      (PathWrapper.mk ["file.json"]) (some "t") = some false :=
  c4_absent_dir_no_skip simpleCompile
    (Filter.mk [("d", ["f"])] [("d", ["r"])] [("d", ["t"])])
    (PathWrapper.mk ["file.json"]) (some "t")
    (by decide) (by decide) (by decide)

/-- Counterexample for C5 as stated: a well-formed document that omits one
of the three sections (here `regex`) does not load with the missing
mapping empty; deserialization fails, because the derived deserializer
requires all three fields (no default is declared in the source). -/
theorem c5_load_cex :
    deserializeFilter (.map [("filename", encodeFilterMap []),
      ("testname", encodeFilterMap [])]) = none := by
  decide

/-- C5 amended: deserialization succeeds exactly on documents carrying all
three sections, each a mapping from directory names to lists of strings
(the loaded document is the evident one); omitting a section is a format
error, as is a section that is not such a mapping, or a directory entry
whose value is not a list of strings. -/
theorem c5_load_shape (a b c : FilterMap) :
    deserializeFilter (.map [("filename", encodeFilterMap a),
        ("regex", encodeFilterMap b), ("testname", encodeFilterMap c)]) =
      some (Filter.mk a b c) ∧
    deserializeFilter (.map [("filename", encodeFilterMap a),
        ("regex", encodeFilterMap b)]) = none ∧
    deserializeFilter (.map [("filename", .str "x"),
        ("regex", encodeFilterMap b), ("testname", encodeFilterMap c)]) =
      none ∧
    deserializeFilter (.map [("filename", .map [("d", .str "x")]),
        ("regex", encodeFilterMap b), ("testname", encodeFilterMap c)]) =
      none := by
  refine ⟨?_, ?_, ?_, ?_⟩
  · simp [deserializeFilter, yamlLookup, List.find?, asFilterMap_encode]
  · simp [deserializeFilter, yamlLookup, List.find?, asFilterMap_encode]
  · simp [deserializeFilter, yamlLookup, List.find?, asFilterMap]
  · simp [deserializeFilter, yamlLookup, List.find?, asFilterMap,
      asFilterMapEntries, asFilterMap_encode]

/-- C6: when evaluation reaches a pattern under the looked-up directory
that fails to compile (every earlier pattern compiled and did not match),
the call is fatal — it never returns a boolean, in particular it does not
treat the bad pattern as a non-match. -/
theorem c6_bad_pattern_fatal (compile : String → Option (String → Bool))
    (flt : Filter) (path : PathWrapper) (case_name : Option String)
    (pre suf : List String) (p : String)
    (hget : mapGet flt.regex path.parent.file_stem_to_string =
      some (pre ++ p :: suf))
    (hpre : ∀ q ∈ pre,
      (compile q).map (fun m => m path.file_stem_to_string) = some false)
    (hbad : (compile p).isNone = true) :
    Filter.is_skipped compile flt path case_name = none := by
  rw [is_skipped_eq]
  have hreg : skip_by_regex compile flt path = none := by
    unfold skip_by_regex
    rw [hget]
    simp only [Option.map_some', Option.getD_some]
    exact anyRegexMatch_none compile pre suf p _ hpre
      (Option.isNone_iff_eq_none.mp hbad)
  rw [hreg]
  rfl

/-- Witness for C6: a list whose first pattern compiles and misses and
whose second is malformed; the evaluation is fatal. -/
theorem c6_bad_pattern_fatal_witness :
    Filter.is_skipped simpleCompile (Filter.mk [] [("d", ["z", "("])] [])
      (PathWrapper.mk ["d", "f.json"]) none = none :=
  c6_bad_pattern_fatal simpleCompile (Filter.mk [] [("d", ["z", "("])] [])
    (PathWrapper.mk ["d", "f.json"]) none ["z"] [] "("
    (by decide) (by decide) (by decide)

/-- C7: a document never differs from itself. -/
theorem c7_diff_self_nil (flt : Filter) : flt.diff flt = [] := by
  have hm : ∀ m : FilterMap, map_diff m m = [] := by
    intro m
    apply List.eq_nil_iff_forall_not_mem.mpr
    intro x hx
    rcases mem_map_diff.mp hx with ⟨hk, hc | hs⟩ | ⟨hk, hc | hs⟩ <;>
      first
        | exact absurd ((containsKey_iff m x).mpr hk) (by rw [hc]; decide)
        | exact absurd (sameAt_self m x) (by rw [hs]; decide)
  unfold Filter.diff
  rw [hm, hm, hm]
  rfl

/-- C8: the diff of two documents is symmetric up to ordering — sorting
`diff A B` and `diff B A` yields the same list. -/
theorem c8_diff_symm_sorted (A B : Filter) :
    List.insertionSort (· ≤ ·) (A.diff B) =
      List.insertionSort (· ≤ ·) (B.diff A) := by
  have hperm : List.Perm (A.diff B) (B.diff A) := by
    unfold Filter.diff
    exact ((map_diff_perm A.filename B.filename).append
      (map_diff_perm A.regex B.regex)).append
        (map_diff_perm A.test_name B.test_name)
  exact List.eq_of_perm_of_sorted
    (((List.perm_insertionSort _ _).trans hperm).trans
      (List.perm_insertionSort _ _).symm)
    (List.sorted_insertionSort _ _) (List.sorted_insertionSort _ _)

/-- C9: the combined diff is the concatenation of the three single-mapping
diffs; within one mapping kind each key is reported at most once, and a
key differing in two kinds is not deduplicated across kinds — it occurs
at least twice in the combined result. -/
theorem c9_diff_concat_no_cross_dedup (A B : Filter) (x : Folder)
    (h1 : x ∈ map_diff A.filename B.filename)
    (h2 : x ∈ map_diff A.regex B.regex) :
    A.diff B =
      map_diff A.filename B.filename ++ map_diff A.regex B.regex ++
        map_diff A.test_name B.test_name ∧
    (∀ y : Folder,
      (map_diff A.filename B.filename).count y ≤ 1 ∧
      (map_diff A.regex B.regex).count y ≤ 1 ∧
      (map_diff A.test_name B.test_name).count y ≤ 1) ∧
    2 ≤ (A.diff B).count x := by
  refine ⟨by unfold Filter.diff; rfl, ?_, ?_⟩
  · intro y
    exact ⟨List.nodup_iff_count_le_one.mp (nodup_map_diff _ _) y,
      List.nodup_iff_count_le_one.mp (nodup_map_diff _ _) y,
      List.nodup_iff_count_le_one.mp (nodup_map_diff _ _) y⟩
  · have hc1 : 0 < (map_diff A.filename B.filename).count x :=
      List.count_pos_iff.mpr h1
    have hc2 : 0 < (map_diff A.regex B.regex).count x :=
      List.count_pos_iff.mpr h2
    unfold Filter.diff
    rw [List.count_append, List.count_append]
    omega

/-- Witness for C9: a directory differing in both the filename and the
regex kinds is reported twice by the combined diff. -/
theorem c9_diff_concat_no_cross_dedup_witness :
    2 ≤ ((Filter.mk [("a", ["x"])] [("a", ["y"])] []).diff
      (Filter.mk [] [] [])).count "a" :=
  (c9_diff_concat_no_cross_dedup
    (Filter.mk [("a", ["x"])] [("a", ["y"])] [])
    (Filter.mk [] [] []) "a" (by decide) (by decide)).2.2

/-- C10: supplying a case name is monotone — a path skipped with no case
name is still skipped when any case name is provided; the test-name tier
only adds skips. -/
theorem c10_case_monotone (compile : String → Option (String → Bool))
    (flt : Filter) (path : PathWrapper) (c : String)
    (h : Filter.is_skipped compile flt path none = some true) :
    Filter.is_skipped compile flt path (some c) = some true := by
  rw [is_skipped_eq] at h ⊢
  cases hreg : skip_by_regex compile flt path with
  | none => rw [hreg] at h; simp at h
  | some rb =>
    simp only [Option.map_some', Option.some.injEq] at h ⊢
    cases hs1 : skip_by_filename flt path <;> rw [hs1] at h <;>
      cases rb <;> simp_all [skip_by_test_name]

/-- Witness for C10: a filename-tier skip is preserved when a case name is
supplied. -/
theorem c10_case_monotone_witness :
    Filter.is_skipped simpleCompile (Filter.mk [("d", ["f"])] [] [])
      (PathWrapper.mk ["d", "f.json"]) (some "x") = some true :=
  c10_case_monotone simpleCompile (Filter.mk [("d", ["f"])] [] [])
    (PathWrapper.mk ["d", "f.json"]) "x" (by decide)

end EfTests
